import Mathlib

/-!
Shallow embedding of `backup_master.py`, the master backup/restore script of
the kuberdock platform.

Filesystem contents (both the live filesystem and the inside of a zip
archive or staging directory) are modelled as a flat association list from
path to file contents, matching the flat, relative-path-preserving member
names the script manipulates.  Subprocess invocations and raised exceptions
are modelled explicitly as values.
-/

namespace BackupMaster

/-- A flat filesystem (or zip archive, or staging directory): an association
list from path to file contents. -/
abbrev FS := List (String × String)

/-- Look up a path in the filesystem model (first entry wins); `none` means
the file is absent. -/
def FS.get (fs : FS) (p : String) : Option String :=
  match fs with
  | [] => none
  | kv :: rest => if kv.1 == p then some kv.2 else FS.get rest p

/-- Write a file at a path (create or overwrite). -/
def FS.set (fs : FS) (p v : String) : FS :=
  (p, v) :: fs.filter (fun kv => kv.1 != p)

/-- `p` is a string prefix of `s` (the script's `str.startswith`). -/
def strStartsWith (s p : String) : Bool :=
  p.data.isPrefixOf s.data

/-- Drop the first `n` characters of a string. -/
def strDrop (s : String) (n : Nat) : String :=
  ⟨s.data.drop n⟩

/- Module-level path constants of `backup_master.py` (lines 31-39). -/

def ETCD_DATA : String := "/var/lib/etcd/default.etcd/member/"

def KNOWN_TOKENS : String := "/etc/kubernetes/known_tokens.csv"

def NODE_CONFIGFILE : String := "/etc/kubernetes/configfile_for_nodes"

def SSH_KEY : String := "/var/lib/nginx/.ssh/id_rsa"

def ETCD_PKI : String := "/etc/pki/etcd/"

def LICENSE : String := "/var/opt/kuberdock/.license"

def LOCKFILE : String := "/var/lock/kd-master-backup.lock"

/-- The seven resource variants of the script, named as the source classes. -/
inductive Resource
  | PostgresResource
  | EtcdResource
  | SSHKeysResource
  | EtcdCertResource
  | KubeTokenResource
  | LicenseResource
  | SharedNginxConfigResource
  deriving DecidableEq, Repr

/-- `backup_chain` (lines 303-305): the ordered tuple of resources a backup
run iterates over. -/
def backup_chain : List Resource :=
  [.PostgresResource, .EtcdResource, .SSHKeysResource, .EtcdCertResource,
   .KubeTokenResource, .LicenseResource, .SharedNginxConfigResource]

/-- `restore_chain` (lines 307-309): the ordered tuple of resources a restore
run iterates over. -/
def restore_chain : List Resource :=
  [.PostgresResource, .EtcdResource, .SSHKeysResource, .EtcdCertResource,
   .KubeTokenResource, .LicenseResource, .SharedNginxConfigResource]

/-- Result of calling a Python callable: either it returns a value or it
raises an exception. -/
inductive PyResult (α : Type)
  | ok (a : α)
  | exn (e : String)
  deriving DecidableEq, Repr

/-- The message `lock` formats into the `BackupError` it raises on
contention (lines 49-52 of the source). -/
def backupErrorMsg (lockfile : String) : String :=
  "Another backup/restore process already running. If it is not, try to remove `"
    ++ lockfile ++ "` and try again."

/-- Outcome of a run of a `lock`-wrapped callable: normal return, the
`BackupError` raised by the failed acquisition, or an exception propagated
out of the guarded callable. -/
inductive LockOutcome (α : Type)
  | ok (a : α)
  | backupError (msg : String)
  | exn (e : String)
  deriving DecidableEq, Repr

/-- State threaded through the lock wrapper: whether the lock marker file
exists, plus the inner state the guarded callable acts on. -/
structure LockSt (σ : Type) where
  lockExists : Bool
  inner : σ
  deriving DecidableEq, Repr

/-- `lock` (lines 42-61): `os.open(lockfile, O_CREAT | O_EXCL)` either
creates the marker or raises `OSError`, re-raised as `BackupError`; on
success the callable runs inside `try/finally` whose `finally` block
unlinks the marker on both the normal-return path and the raising path. -/
def lock {σ α : Type} (lockfile : String) (clbl : σ → σ × PyResult α)
    (s : LockSt σ) : LockSt σ × LockOutcome α :=
  if s.lockExists then
    (s, .backupError (backupErrorMsg lockfile))
  else
    let acquired : LockSt σ := ⟨true, s.inner⟩
    match clbl acquired.inner with
    | (inner2, .ok a) => (⟨false, inner2⟩, .ok a)
    | (inner2, .exn e) => (⟨false, inner2⟩, .exn e)

/-- Claim C7: the resource chain used by a backup run and the resource chain
used by a restore run are the identical ordered sequence of the seven
resource variants (database, key-value store, SSH keys, certificates,
tokens/config, license, shared proxy config). -/
theorem backup_restore_chain_identical :
    backup_chain = restore_chain ∧
    backup_chain = [.PostgresResource, .EtcdResource, .SSHKeysResource,
      .EtcdCertResource, .KubeTokenResource, .LicenseResource,
      .SharedNginxConfigResource] :=
  ⟨rfl, rfl⟩

/-- Claim C4: once the exclusivity guard has been acquired (the marker did
not already exist), the lock marker is removed on every exit path of the
guarded operation — whether the callable returns normally or raises, after
the wrapped operation completes the marker does not exist. -/
theorem lock_released_on_every_exit {σ α : Type} (lockfile : String)
    (clbl : σ → σ × PyResult α) (s : LockSt σ) (h : s.lockExists = false) :
    ((lock lockfile clbl s).1).lockExists = false := by
  unfold lock
  rw [h]
  simp only [Bool.false_eq_true, if_false]
  rcases clbl s.inner with ⟨inner2, r⟩
  cases r <;> rfl

/-- Witness for C4: a concrete guarded operation that raises still leaves no
lock marker behind. -/
theorem lock_released_on_every_exit_witness :
    ((lock LOCKFILE (fun n : Nat => (n + 1, (PyResult.exn "boom" : PyResult Unit)))
      ⟨false, 0⟩).1).lockExists = false :=
  lock_released_on_every_exit LOCKFILE
    (fun n : Nat => (n + 1, (PyResult.exn "boom" : PyResult Unit))) ⟨false, 0⟩ rfl

/-- Claim C5: acquiring the exclusivity guard when the lock marker already
exists fails fast with the already-running `BackupError`, whose message
carries the marker path and a remediation hint; the guarded operation is
never run (the result does not depend on the callable and the state is
unchanged). -/
theorem lock_contention_fails_fast {σ α : Type} (lockfile : String)
    (clbl clbl2 : σ → σ × PyResult α) (s : LockSt σ)
    (h : s.lockExists = true) :
    lock lockfile clbl s = (s, .backupError (backupErrorMsg lockfile)) ∧
    lock lockfile clbl s = lock lockfile clbl2 s ∧
    (∃ pre post, backupErrorMsg lockfile = pre ++ lockfile ++ post) := by
  unfold lock
  rw [h]
  refine ⟨rfl, rfl,
    "Another backup/restore process already running. If it is not, try to remove `",
    "` and try again.", rfl⟩

/-- Witness for C5: with the marker present, a concrete run returns the
contention error and leaves the state untouched. -/
theorem lock_contention_fails_fast_witness :
    lock LOCKFILE (fun n : Nat => (n + 1, PyResult.ok n)) ⟨true, 5⟩
      = (⟨true, 5⟩, .backupError (backupErrorMsg LOCKFILE)) :=
  (lock_contention_fails_fast LOCKFILE
    (fun n : Nat => (n + 1, PyResult.ok n))
    (fun n : Nat => (n, PyResult.exn "x")) ⟨true, 5⟩ rfl).1

/-- Result of one resource step acting on state `σ`: normal return,
`subprocess.CalledProcessError` (non-zero exit of an external tool), or any
other raised exception. -/
inductive StepResult (σ : Type)
  | ok (s : σ)
  | calledProcessError (e : String) (s : σ)
  | otherExn (e : String) (s : σ)
  deriving DecidableEq, Repr

/-- The per-resource loop shared by `do_backup` (lines 325-332) and
`do_restore` (lines 390-397): each step runs in turn; a
`CalledProcessError` is logged and, when `skip_errors` is false, re-raised
(aborting the loop); any other exception propagates immediately.  The
second component of the result is the propagated exception, if any. -/
def runChain {σ : Type} (steps : List (σ → StepResult σ)) (skip_errors : Bool)
    (s : σ) : σ × Option String :=
  match steps with
  | [] => (s, none)
  | step :: rest =>
    match step s with
    | .ok s1 => runChain rest skip_errors s1
    | .calledProcessError e s1 =>
      if skip_errors then runChain rest skip_errors s1 else (s1, some e)
    | .otherExn e s1 => (s1, some e)

/-- `parse_args` lines 426-428: the flag is declared as
`add_argument("-s", '--skip', action='store_false', dest='skip_errors',
help="Do not stop if one steps is failed")`.  With `store_false` the parsed
`skip_errors` defaults to `true` and becomes `false` exactly when `-s` or
`--skip` is present on the command line. -/
def parse_skip_errors (args : List String) : Bool :=
  !(args.contains "-s" || args.contains "--skip")

/-- State of a backup run: the files staged in the fresh staging directory
(paths relative to the staging root) and the packaged archive, once
packaging has happened. -/
structure BackupState where
  staged : FS
  archive : Option FS
  deriving DecidableEq, Repr

/-- `zipdir` (lines 76-80): walks the staging directory and writes every
file under its path relative to the staging root; on the flat
path-to-contents model this is the identity on the member map. -/
def zipdir (path : FS) : FS := path

/-- The staging directory right after `do_backup` creates it and attaches
the per-run log sink `main.log` inside it (lines 320-323). -/
def initialStaging : FS := [("main.log", "")]

/-- `do_backup` (lines 312-342), with the staging directory and archive as
explicit state: every capture step runs under the skip policy; if the loop
raised, the exception propagates before any archive is written; otherwise
the staging directory is packaged with `zipdir` into the archive. -/
def do_backup (steps : List (FS → StepResult FS)) (skip_errors : Bool) :
    BackupState × Option String :=
  match runChain steps skip_errors initialStaging with
  | (staged, some e) => (⟨staged, none⟩, some e)
  | (staged, none) => (⟨staged, some (zipdir staged)⟩, none)

/-- `do_restore` (lines 377-397) restricted to the per-resource loop: the
archive is opened once and every restore step receives that same open
archive; the surrounding service restarts touch no archive state. -/
def do_restore (zip_archive : FS) (steps : List (FS → FS → StepResult FS))
    (skip_errors : Bool) (fs : FS) : FS × Option String :=
  runChain (steps.map (fun res => res zip_archive)) skip_errors fs

/-- Unfolding of `runChain` on the empty chain. -/
theorem runChain_nil {σ : Type} (skip_errors : Bool) (s : σ) :
    runChain [] skip_errors s = (s, none) := rfl

/-- Unfolding of `runChain` on a nonempty chain. -/
theorem runChain_cons {σ : Type} (step : σ → StepResult σ)
    (rest : List (σ → StepResult σ)) (skip_errors : Bool) (s : σ) :
    runChain (step :: rest) skip_errors s
      = (match step s with
         | .ok s1 => runChain rest skip_errors s1
         | .calledProcessError e s1 =>
           if skip_errors then runChain rest skip_errors s1 else (s1, some e)
         | .otherExn e s1 => (s1, some e)) := rfl

/-- If a prefix of the chain completes without a propagated exception, the
loop over the whole chain continues from the prefix's final state. -/
theorem runChain_append_ok {σ : Type} (l1 l2 : List (σ → StepResult σ))
    (skip_errors : Bool) (s s1 : σ)
    (h : runChain l1 skip_errors s = (s1, none)) :
    runChain (l1 ++ l2) skip_errors s = runChain l2 skip_errors s1 := by
  induction l1 generalizing s with
  | nil =>
    rw [runChain_nil] at h
    injection h with h1 h2
    rw [List.nil_append, h1]
  | cons step rest ih =>
    rw [List.cons_append, runChain_cons]
    rw [runChain_cons] at h
    cases hstep : step s with
    | ok s2 =>
      rw [hstep] at h
      exact ih s2 h
    | calledProcessError e2 s2 =>
      rw [hstep] at h
      cases skip_errors with
      | true => exact ih s2 h
      | false => simp at h
    | otherExn e2 s2 =>
      rw [hstep] at h
      simp at h

/-- Claim C6: a `CalledProcessError` from a step is the only failure class
subject to the skip/abort policy: under the continue policy it is
suppressed and the loop proceeds with the remaining steps, under the abort
policy it propagates; any other exception raised by a step aborts the loop
regardless of the policy. -/
theorem calledProcessError_only_policy_failure {σ : Type}
    (rest : List (σ → StepResult σ)) (e : String) (s s1 : σ)
    (skip_errors : Bool) :
    runChain ((fun _ => .calledProcessError e s1) :: rest) skip_errors s
      = (if skip_errors then runChain rest skip_errors s1 else (s1, some e)) ∧
    runChain ((fun _ => .otherExn e s1) :: rest) skip_errors s
      = (s1, some e) :=
  ⟨rfl, rfl⟩

/-- Claim C1 (evidence of the code bug): `--skip` is parsed with
`action='store_false'`, so a run invoked *without* the flag has
`skip_errors = true` and continues past a `CalledProcessError`, while a run
invoked *with* `--skip` has `skip_errors = false` and aborts — the exact
opposite of the flag's own help text ("Do not stop if one steps is failed")
and of the documented behaviour. -/
theorem skip_flag_semantics_inverted :
    parse_skip_errors ["backup", "/var/backups"] = true ∧
    parse_skip_errors ["-s", "backup", "/var/backups"] = false ∧
    runChain [fun s : FS => .calledProcessError "exit 1" s,
              fun s : FS => .ok (FS.set s "postgresql.backup" "dump")]
        (parse_skip_errors ["backup", "/var/backups"]) initialStaging
      = (FS.set initialStaging "postgresql.backup" "dump", none) ∧
    runChain [fun s : FS => .calledProcessError "exit 1" s,
              fun s : FS => .ok (FS.set s "postgresql.backup" "dump")]
        (parse_skip_errors ["-s", "backup", "/var/backups"]) initialStaging
      = (initialStaging, some "exit 1") :=
  ⟨rfl, rfl, rfl, rfl⟩

/-- Claim C9: with failure policy = abort (`skip_errors = false`), if a
capture step fails with a `CalledProcessError` after a prefix of successful
steps, `do_backup` never packages an archive and the staging directory
keeps exactly the files staged by the successful prefix. -/
theorem abort_policy_keeps_staged_no_archive
    (pre rest : List (FS → StepResult FS)) (e : String) (s1 : FS)
    (hpre : runChain pre false initialStaging = (s1, none)) :
    do_backup (pre ++ (fun s => .calledProcessError e s) :: rest) false
      = (⟨s1, none⟩, some e) := by
  unfold do_backup
  rw [runChain_append_ok pre _ false initialStaging s1 hpre]
  rfl

/-- Witness for C9: two successful capture steps, then a failing one — the
run aborts, no archive exists, and both staged files survive. -/
theorem abort_policy_keeps_staged_no_archive_witness :
    do_backup ([fun s : FS => .ok (FS.set s "postgresql.backup" "pg"),
                fun s : FS => .ok (FS.set s "id_rsa" "key")] ++
        (fun s : FS => .calledProcessError "exit 2" s) ::
          [fun s : FS => .ok s]) false
      = (⟨FS.set (FS.set initialStaging "postgresql.backup" "pg") "id_rsa" "key",
          none⟩, some "exit 2") :=
  abort_policy_keeps_staged_no_archive
    [fun s : FS => .ok (FS.set s "postgresql.backup" "pg"),
     fun s : FS => .ok (FS.set s "id_rsa" "key")]
    [fun s : FS => .ok s] "exit 2"
    (FS.set (FS.set initialStaging "postgresql.backup" "pg") "id_rsa" "key") rfl

/-- One filesystem write performed by a capture step inside the staging
directory: a write under a temporary name, an atomic rename of a temporary
name to the final name, or a direct write at the final name. -/
inductive WriteOp
  | writeTmp (tmpName : String)
  | rename (tmpName finalName : String)
  | writeFinal (finalName : String)
  deriving DecidableEq, Repr

/-- The sequence of staging-directory writes each resource's `backup`
performs, with the random component of the `mkstemp`/`mkdtemp` names
abstracted as `tmp`.  For the optional license resource the license file is
taken to exist (when it is absent the capture writes nothing at all). -/
def captureTrace (tmp : String) : Resource → List WriteOp
  | .PostgresResource =>
    -- lines 121-129: mkstemp with suffix '.backup.in_progress', pg_dump
    -- into it, then os.rename to "postgresql.backup"
    [.writeTmp tmp, .rename tmp "postgresql.backup"]
  | .EtcdResource =>
    -- lines 148-161: mkdtemp with suffix "-inprogress", tree copies into
    -- it, then os.rename to "etcd"
    [.writeTmp tmp, .rename tmp "etcd"]
  | .SSHKeysResource =>
    -- lines 218-229: mkstemp for the private key, a direct shutil.copy of
    -- the public key at its final name, then os.rename to "id_rsa"
    [.writeTmp tmp, .writeFinal "id_rsa.pub", .rename tmp "id_rsa"]
  | .EtcdCertResource =>
    -- lines 242-252: mkdtemp, copies into it, then os.rename to "etcd_pki"
    [.writeTmp tmp, .rename tmp "etcd_pki"]
  | .KubeTokenResource =>
    -- lines 200-205: two direct shutil.copy calls at the final names
    [.writeFinal "known_tokens.csv", .writeFinal "configfile_for_nodes"]
  | .LicenseResource =>
    -- lines 261-265: a direct shutil.copy at the final name
    [.writeFinal ".license"]
  | .SharedNginxConfigResource =>
    -- lines 278-287: mkdtemp, copies into it, then os.rename to
    -- "nginx_config"
    [.writeTmp tmp, .rename tmp "nginx_config"]

/-- A capture trace is atomic at the final name when every write happens
under a temporary name and the final name is reached only by a rename. -/
def atomicAtFinalName (t : List WriteOp) : Bool :=
  t.all (fun op => match op with
    | .writeFinal _ => false
    | _ => true)

/-- Counterexample to C3: the token/config resource's capture copies both
of its files directly to their final names — no temporary name, no atomic
rename — and the license capture does the same, so not every resource
variant stages its output atomically. -/
theorem capture_not_all_atomic :
    atomicAtFinalName (captureTrace "tmpXYZ" .KubeTokenResource) = false ∧
    atomicAtFinalName (captureTrace "tmpXYZ" .LicenseResource) = false :=
  ⟨rfl, rfl⟩

/-- Claim C3 amended: the database, key-value store, certificate and shared
proxy-config captures write under a temporary name and atomically rename to
the final name; the SSH-key capture does so for the private key but copies
the public key directly at its final name; the tokens/config and license
captures copy directly at their final names with no temporary-rename
step. -/
theorem capture_atomicity_by_resource (tmp : String) :
    atomicAtFinalName (captureTrace tmp .PostgresResource) = true ∧
    atomicAtFinalName (captureTrace tmp .EtcdResource) = true ∧
    atomicAtFinalName (captureTrace tmp .EtcdCertResource) = true ∧
    atomicAtFinalName (captureTrace tmp .SharedNginxConfigResource) = true ∧
    atomicAtFinalName (captureTrace tmp .SSHKeysResource) = false ∧
    atomicAtFinalName (captureTrace tmp .KubeTokenResource) = false ∧
    atomicAtFinalName (captureTrace tmp .LicenseResource) = false :=
  ⟨rfl, rfl, rfl, rfl, rfl, rfl, rfl⟩

/-- Member names of the archive that begin with the given string (the
script's `filter(lambda x: x.startswith(...), ...)` over
`zip_archive.namelist()`), with that leading string stripped, as
`extractall` lays the members out in the temp directory. -/
def membersUnder (zip_archive : FS) (dir : String) : List (String × String) :=
  zip_archive.filterMap (fun kv =>
    if strStartsWith kv.1 dir then some (strDrop kv.1 dir.length, kv.2)
    else none)

/-- `EtcdCertResource.restore` (lines 254-256): the body is `pass` — a
no-op on every filesystem. -/
def EtcdCertResource.restore (_zip_archive : FS) (fs : FS) : FS := fs

/-- `EtcdResource.restore` (lines 163-195) as a transformation of the live
filesystem: the members whose names start with `etcd` are extracted to a
temp directory; every file of its `etcd_pki` subdirectory is copied into
the live `ETCD_PKI` directory; the `wal` and `snap` subtrees of `ETCD_DATA`
are removed (tolerating their absence); every entry of the extracted `etcd`
subdirectory is copied into `ETCD_DATA`.  The recursive chown changes no
file contents and the temp directory is removed afterwards, so neither
appears in the contents model. -/
def EtcdResource.restore (zip_archive : FS) (fs : FS) : FS :=
  let pkiFiles := membersUnder zip_archive "etcd_pki/"
  let fs1 := pkiFiles.foldl (fun acc kv => FS.set acc (ETCD_PKI ++ kv.1) kv.2) fs
  let fs2 := fs1.filter (fun kv =>
    !(strStartsWith kv.1 (ETCD_DATA ++ "wal/") ||
      strStartsWith kv.1 (ETCD_DATA ++ "snap/")))
  let dataFiles := membersUnder zip_archive "etcd/"
  dataFiles.foldl (fun acc kv => FS.set acc (ETCD_DATA ++ kv.1) kv.2) fs2

/-- Counterexample to C2: a restore run does write certificate material
into the live PKI location — the key-value-store resource's restore copies
the archive's `etcd_pki` entries into `ETCD_PKI`, changing the live
certificate file from its old contents to the archived ones. -/
theorem restore_writes_live_pki :
    FS.get (EtcdResource.restore [("etcd_pki/ca.crt", "NEWCERT")]
        [("/etc/pki/etcd/ca.crt", "OLDCERT")]) "/etc/pki/etcd/ca.crt"
      = some "NEWCERT" ∧
    FS.get [("/etc/pki/etcd/ca.crt", "OLDCERT")] "/etc/pki/etcd/ca.crt"
      = some "OLDCERT" ∧
    (some "NEWCERT" : Option String) ≠ some "OLDCERT" :=
  ⟨rfl, rfl, by decide⟩

/-- Claim C2 amended: the certificate resource's restore operation is a
no-op on every filesystem, but the key-value-store resource's restore step
does write certificate material into the live PKI location: on some archive
and filesystem it changes a file under `ETCD_PKI`. -/
theorem cert_restore_noop_but_etcd_restore_writes_pki :
    (∀ (zip_archive fs : FS), EtcdCertResource.restore zip_archive fs = fs) ∧
    (∃ (zip_archive fs : FS) (p : String), strStartsWith p ETCD_PKI = true ∧
      FS.get (EtcdResource.restore zip_archive fs) p ≠ FS.get fs p) := by
  refine ⟨fun _ _ => rfl, [("etcd_pki/ca.crt", "NEWCERT")],
    [("/etc/pki/etcd/ca.crt", "OLDCERT")], "/etc/pki/etcd/ca.crt",
    by decide, ?_⟩
  intro hcontra
  rw [show FS.get (EtcdResource.restore [("etcd_pki/ca.crt", "NEWCERT")]
        [("/etc/pki/etcd/ca.crt", "OLDCERT")]) "/etc/pki/etcd/ca.crt"
      = some "NEWCERT" from rfl,
    show FS.get [("/etc/pki/etcd/ca.crt", "OLDCERT")] "/etc/pki/etcd/ca.crt"
      = some "OLDCERT" from rfl] at hcontra
  exact absurd hcontra (by decide)

/-- `LicenseResource.backup` (lines 261-265): if the license file exists it
is copied into the staging directory and the staged path is returned;
otherwise nothing is staged and the method returns `None` — not an
error. -/
def LicenseResource.backup (fs : FS) (dst : FS) : FS × Option String :=
  match FS.get fs LICENSE with
  | some contents => (FS.set dst ".license" contents, some ".license")
  | none => (dst, none)

/-- `LicenseResource.restore` (lines 267-271): only when `.license` is
among the archive's member names is the live license file overwritten;
otherwise the filesystem is untouched — a silent no-op. -/
def LicenseResource.restore (zip_archive : FS) (fs : FS) : FS :=
  match FS.get zip_archive ".license" with
  | some contents => FS.set fs LICENSE contents
  | none => fs

/-- Claim C8: when the license file is absent, the license capture stages
nothing (hence no archive entry) and returns `None` without raising; when
the archive has no `.license` entry, the license restore leaves the
filesystem untouched without raising. -/
theorem license_optional_absent_noop (fs dst zip_archive live : FS)
    (hfile : FS.get fs LICENSE = none)
    (hentry : FS.get zip_archive ".license" = none) :
    LicenseResource.backup fs dst = (dst, none) ∧
    LicenseResource.restore zip_archive live = live := by
  unfold LicenseResource.backup LicenseResource.restore
  rw [hfile, hentry]
  exact ⟨rfl, rfl⟩

/-- Witness for C8: a filesystem with no license file and an archive with
no `.license` member. -/
theorem license_optional_absent_noop_witness :
    LicenseResource.backup [("/etc/hosts", "h")] initialStaging
      = (initialStaging, none) ∧
    LicenseResource.restore [("postgresql.backup", "pg")] [("/etc/hosts", "h")]
      = [("/etc/hosts", "h")] :=
  license_optional_absent_noop [("/etc/hosts", "h")] initialStaging
    [("postgresql.backup", "pg")] [("/etc/hosts", "h")] rfl rfl

/-- Unfolding of the association-list lookup on a nonempty filesystem. -/
theorem FS.get_cons (kv : String × String) (rest : FS) (q : String) :
    FS.get (kv :: rest) q = if kv.1 == q then some kv.2 else FS.get rest q :=
  rfl

/-- Reading back a freshly written path yields the written contents. -/
theorem FS.get_set_self (fs : FS) (p v : String) :
    FS.get (FS.set fs p v) p = some v := by
  rw [FS.set, FS.get_cons]
  simp

/-- Removing all entries at key `p` does not change the lookup of a
different key `q`. -/
theorem FS.get_filter_ne (fs : FS) (p q : String) (h : q ≠ p) :
    FS.get (fs.filter (fun kv => kv.1 != p)) q = FS.get fs q := by
  induction fs with
  | nil => rfl
  | cons kv rest ih =>
    rw [List.filter_cons]
    cases hkb : (kv.1 != p) with
    | false =>
      have hkp : kv.1 = p := by simpa using hkb
      have h2 : (kv.1 == q) = false := by
        refine beq_eq_false_iff_ne.mpr ?_
        rw [hkp]
        exact fun hc => h hc.symm
      simp only [Bool.false_eq_true, if_false]
      rw [ih, FS.get_cons, h2]
      simp only [Bool.false_eq_true, if_false]
    | true =>
      simp only [eq_self_iff_true, if_true]
      rw [FS.get_cons, FS.get_cons]
      cases hq : (kv.1 == q) with
      | true => simp only [eq_self_iff_true, if_true]
      | false =>
        simp only [Bool.false_eq_true, if_false]
        exact ih

/-- Writing at path `p` does not change the lookup of a different path. -/
theorem FS.get_set_ne (fs : FS) (p v q : String) (h : q ≠ p) :
    FS.get (FS.set fs p v) q = FS.get fs q := by
  rw [FS.set, FS.get_cons]
  have h2 : (p == q) = false :=
    beq_eq_false_iff_ne.mpr (fun hc => h hc.symm)
  rw [h2]
  simp only [Bool.false_eq_true, if_false]
  exact FS.get_filter_ne fs p q h

/-- The writes one mock resource's capture performs, staged in order into
the staging directory. -/
def stageWrites (ws : List (String × String)) (s : FS) : FS :=
  ws.foldl (fun acc kv => FS.set acc kv.1 kv.2) s

/-- A mock capture step that records `ws` into the staging directory and
succeeds. -/
def mockCaptureStep (ws : List (String × String)) : FS → StepResult FS :=
  fun s => .ok (stageWrites ws s)

/-- Unfolding of `stageWrites` on a nonempty write list. -/
theorem stageWrites_cons (kv : String × String)
    (rest : List (String × String)) (s : FS) :
    stageWrites (kv :: rest) s = stageWrites rest (FS.set s kv.1 kv.2) := rfl

/-- A capture that never writes path `n` leaves the lookup of `n`
unchanged. -/
theorem get_stageWrites_notMem (ws : List (String × String)) (s : FS)
    (n : String) (h : n ∉ ws.map Prod.fst) :
    FS.get (stageWrites ws s) n = FS.get s n := by
  induction ws generalizing s with
  | nil => rfl
  | cons kv rest ih =>
    rw [stageWrites_cons]
    have h1 : n ≠ kv.1 := fun hc => h (by rw [List.map_cons]; exact List.mem_cons.mpr (Or.inl hc))
    have h2 : n ∉ rest.map Prod.fst := fun hc => h (by rw [List.map_cons]; exact List.mem_cons.mpr (Or.inr hc))
    rw [ih _ h2, FS.get_set_ne s kv.1 kv.2 n h1]

/-- After a capture whose member names are distinct, looking up a name the
capture wrote yields exactly the written bytes. -/
theorem get_stageWrites_mem (ws : List (String × String)) (s : FS)
    (n b : String) (hnd : (ws.map Prod.fst).Nodup) (hmem : (n, b) ∈ ws) :
    FS.get (stageWrites ws s) n = some b := by
  induction ws generalizing s with
  | nil => cases hmem
  | cons kv rest ih =>
    rw [stageWrites_cons]
    rcases List.mem_cons.mp hmem with heq | hmem2
    · have hk1 : kv.1 = n := by rw [← heq]
      have hk2 : kv.2 = b := by rw [← heq]
      have hnotin : n ∉ rest.map Prod.fst := by
        rw [← hk1]
        rw [List.map_cons] at hnd
        exact (List.nodup_cons.mp hnd).1
      rw [get_stageWrites_notMem rest _ n hnotin, hk1, FS.get_set_self, hk2]
    · have hnd2 : (rest.map Prod.fst).Nodup := by
        rw [List.map_cons] at hnd
        exact (List.nodup_cons.mp hnd).2
      exact ih (FS.set s kv.1 kv.2) hnd2 hmem2


/-- All the member names a collection of mock resources stages. -/
def allNames (resources : List (List (String × String))) : List String :=
  (resources.map (fun ws => ws.map Prod.fst)).flatten

/-- Unfolding of `allNames` on a nonempty collection. -/
theorem allNames_cons (ws : List (String × String))
    (rest : List (List (String × String))) :
    allNames (ws :: rest) = ws.map Prod.fst ++ allNames rest := by
  rw [allNames, List.map_cons, List.flatten_cons, allNames]

/-- Resources that never write path `n` leave the lookup of `n`
unchanged. -/
theorem get_foldStage_notMem (resources : List (List (String × String)))
    (s : FS) (n : String) (h : n ∉ allNames resources) :
    FS.get (resources.foldl (fun acc ws => stageWrites ws acc) s) n
      = FS.get s n := by
  induction resources generalizing s with
  | nil => rfl
  | cons ws rest ih =>
    rw [List.foldl_cons]
    have h1 : n ∉ ws.map Prod.fst := fun hc =>
      h (by rw [allNames_cons]; exact List.mem_append.mpr (Or.inl hc))
    have h2 : n ∉ allNames rest := fun hc =>
      h (by rw [allNames_cons]; exact List.mem_append.mpr (Or.inr hc))
    rw [ih _ h2, get_stageWrites_notMem ws s n h1]

/-- With globally distinct member names, the state staged by the whole
collection maps each captured name to exactly its captured bytes. -/
theorem get_foldStage_mem (resources : List (List (String × String)))
    (s : FS) (n b : String) (hnd : (allNames resources).Nodup)
    (r : List (String × String)) (hr : r ∈ resources) (hmem : (n, b) ∈ r) :
    FS.get (resources.foldl (fun acc ws => stageWrites ws acc) s) n
      = some b := by
  induction resources generalizing s with
  | nil => cases hr
  | cons ws rest ih =>
    rw [List.foldl_cons]
    rw [allNames_cons] at hnd
    rcases List.nodup_append.mp hnd with ⟨hnd1, hnd2, hdisj⟩
    rcases List.mem_cons.mp hr with heq | hr2
    · have hmem2 : (n, b) ∈ ws := heq ▸ hmem
      have hnames : n ∈ ws.map Prod.fst := List.mem_map.mpr ⟨(n, b), hmem2, rfl⟩
      have hnotin : n ∉ allNames rest := fun hc => hdisj hnames hc
      rw [get_foldStage_notMem rest _ n hnotin]
      exact get_stageWrites_mem ws s n b hnd1 hmem2
    · exact ih (stageWrites ws s) hnd2 hr2

/-- A chain of mock capture steps never raises: it ends with the staging
directory holding every resource's writes in chain order. -/
theorem runChain_mockCapture (resources : List (List (String × String)))
    (skip_errors : Bool) (s : FS) :
    runChain (resources.map mockCaptureStep) skip_errors s
      = (resources.foldl (fun acc ws => stageWrites ws acc) s, none) := by
  induction resources generalizing s with
  | nil => rfl
  | cons ws rest ih =>
    rw [List.map_cons, runChain_cons]
    exact ih (stageWrites ws s)

/-- Claim C10: for every collection of mock resources whose capture steps
write byte contents under (globally distinct) member names into the staging
directory, the backup run packages the staging directory into an archive in
which every resource's captured name maps to exactly the bytes that
resource produced, and the restore run hands each restore step that same
open archive unchanged — so each restore step is delivered exactly the
bytes its resource produced during capture. -/
theorem backup_restore_round_trip (resources : List (List (String × String)))
    (hnd : (allNames resources).Nodup) (r : List (String × String))
    (hr : r ∈ resources) (n b : String) (hmem : (n, b) ∈ r) :
    ∃ ar : FS,
      (do_backup (resources.map mockCaptureStep) true).1.archive = some ar ∧
      FS.get ar n = some b ∧
      ∀ (steps : List (FS → FS → StepResult FS)) (skip_errors : Bool)
        (fs : FS),
        do_restore ar steps skip_errors fs
          = runChain (steps.map (fun res => res ar)) skip_errors fs := by
  refine ⟨resources.foldl (fun acc ws => stageWrites ws acc) initialStaging,
    ?_, ?_, fun _ _ _ => rfl⟩
  · unfold do_backup
    rw [runChain_mockCapture]
    rfl
  · exact get_foldStage_mem resources initialStaging n b hnd r hr hmem

/-- Witness for C10: two concrete mock resources; the bytes the second one
captured for `id_rsa` come back from the archive unchanged. -/
theorem backup_restore_round_trip_witness :
    ∃ ar : FS,
      (do_backup ([[("postgresql.backup", "pgbytes")],
        [("id_rsa", "keybytes"), ("id_rsa.pub", "pubbytes")]].map
          mockCaptureStep) true).1.archive = some ar ∧
      FS.get ar "id_rsa" = some "keybytes" ∧
      ∀ (steps : List (FS → FS → StepResult FS)) (skip_errors : Bool)
        (fs : FS),
        do_restore ar steps skip_errors fs
          = runChain (steps.map (fun res => res ar)) skip_errors fs :=
  backup_restore_round_trip
    [[("postgresql.backup", "pgbytes")],
     [("id_rsa", "keybytes"), ("id_rsa.pub", "pubbytes")]]
    (by decide) [("id_rsa", "keybytes"), ("id_rsa.pub", "pubbytes")]
    (by decide) "id_rsa" "keybytes" (by decide)

end BackupMaster
